import Mathlib

/-!
Shallow embedding of the People CRUD service of nwt-school-back-nestjs.

Two variants exist in the repository:
* an in-memory `PeopleService` holding a `List Person` (src/unnamed/part_004,
  together with the in-memory `update`/`delete` halves of
  src/src/people/people.service.ts);
* a document-store variant (src/unnamed/part_003) where a `PeopleService`
  wraps a `PeopleDao`; the DAO delegates to an external document store, so
  its outcome is modelled as a parameter of the service translation.

JavaScript strings are modelled as `String`, `toLowerCase` as the
character-wise `jsToLower`, timestamps as `Int`.  The JS `Date` parser and
`Math.random` / `Date.now` are external: they appear as parameters
(`jsDate : String → Int`, `now : Int`, a rational draw `r`).
Errors thrown by the service are modelled by `ServiceError`; the in-memory
operations return the error outcome together with the resulting list, the
error branches leaving the list untouched exactly as the source does
(mutation only happens in `_addPerson`'s tap, `Object.assign` and `splice`).
-/

/-- A stored person record (src/src/people/people.types.ts shape, per the
spec data model: id, firstname, lastname, birthDate, photo). -/
structure Person where
  id : String
  firstname : String
  lastname : String
  birthDate : Int
  photo : String
deriving Repr, DecidableEq, Inhabited

/-- The creation payload: firstname and lastname are mandatory (validated
upstream); the caller may also supply a birthDate and a photo, which
`_addPerson` overwrites. -/
structure CreatePersonDto where
  firstname : String
  lastname : String
  birthDate : Int
  photo : String
deriving Repr, DecidableEq

/-- The update payload (a `PartialType` of the creation payload): every
field is optional; an absent field is `none` (JS `undefined`). -/
structure UpdatePersonDto where
  firstname : Option String
  lastname : Option String
  birthDate : Option Int
  photo : Option String
deriving Repr, DecidableEq

/-- The error kinds raised by the services: NotFound, Conflict,
Unprocessable (the messages carried by the exceptions are not modelled),
plus the JS TypeError raised when `undefined.toLowerCase()` is evaluated. -/
inductive ServiceError where
  | notFound
  | conflict
  | unprocessable
  | typeError
deriving Repr, DecidableEq

deriving instance DecidableEq for Except

/-- `_parseDate` (both variants): split on `/`, reorder `dd/mm/yyyy` to
`yyyy/mm/dd` and hand the result to the external JS `Date` parser
(a parameter `jsDate`; a missing index yields the string "undefined" as the
JS string conversion would). -/
def _parseDate (jsDate : String → Int) (date : String) : Int :=
  let dates := date.splitOn "/"
  jsDate (dates.getD 2 "undefined" ++ "/" ++ dates.getD 1 "undefined" ++ "/"
    ++ dates.getD 0 "undefined")

/-- The fixed placeholder photo URL written by `_addPerson` in both
variants. -/
def placeholderPhoto : String := "https://randomuser.me/api/portraits/lego/6.jpg"

/-- JS `toLowerCase` on a single character (ASCII range, the only case
relevant to the names and ids of this data set). -/
def lowerChar (c : Char) : Char :=
  if 65 ≤ c.toNat ∧ c.toNat ≤ 90 then Char.ofNat (c.toNat + 32) else c

/-- JS `String.prototype.toLowerCase`, modelled character-wise. -/
def jsToLower (s : String) : String := ⟨s.data.map lowerChar⟩

/-- First index satisfying a predicate, mirroring the rxjs `findIndex`
(but returning `none` instead of `-1`). -/
def findIndexL {α : Type} (pred : α → Bool) : List α → Option Nat
  | [] => none
  | x :: xs => if pred x then some 0 else (findIndexL pred xs).map (· + 1)

/-- rxjs `find` with a predicate that may throw: the scan stops at the
first element whose predicate throws or returns true. -/
def findE {α : Type} (pred : α → Except ServiceError Bool) :
    List α → Except ServiceError (Option α)
  | [] => .ok none
  | x :: xs =>
    match pred x with
    | .error e => .error e
    | .ok true => .ok (some x)
    | .ok false => findE pred xs

namespace InMemory

/-- `_createId` (src/unnamed/part_004 line 130): the current timestamp as a
string. -/
def _createId (now : Int) : String := toString now

/-- The name-collision scan of `create` (src/unnamed/part_004 lines 74-79):
first record whose lastname and firstname both match the payload
case-insensitively. -/
def createCollision (people : List Person) (person : CreatePersonDto) : Option Person :=
  people.find? fun p =>
    jsToLower p.lastname == jsToLower person.lastname &&
    jsToLower p.firstname == jsToLower person.firstname

/-- `_addPerson` (src/unnamed/part_004 lines 101-107): spread the payload,
overwrite id, birthDate and photo, append to the list, return the new
record. -/
def _addPerson (people : List Person) (person : CreatePersonDto) (now : Int)
    (jsDate : String → Int) : Person × List Person :=
  let newP : Person :=
    { firstname := person.firstname
      lastname := person.lastname
      id := _createId now
      birthDate := _parseDate jsDate "06/05/1985"
      photo := placeholderPhoto }
  (newP, people ++ [newP])

/-- `create` (src/unnamed/part_004 lines 73-90): Conflict when the
collision scan finds a record, otherwise `_addPerson`. -/
def create (people : List Person) (person : CreatePersonDto) (now : Int)
    (jsDate : String → Int) : Except ServiceError Person × List Person :=
  match createCollision people person with
  | some _ => (.error .conflict, people)
  | none =>
    let r := _addPerson people person now jsDate
    (.ok r.1, r.2)

/-- `findOne` (src/unnamed/part_004 lines 54-64): first record with the
given id (strict equality), NotFound otherwise. -/
def findOne (people : List Person) (id : String) : Except ServiceError Person :=
  match people.find? (fun p => p.id == id) with
  | some p => .ok p
  | none => .error .notFound

/-- `_findPeopleIndexOfList` (src/src/people/people.service.ts lines
164-174): index of the first record with the given id (strict equality),
NotFound otherwise. -/
def _findPeopleIndexOfList (people : List Person) (id : String) :
    Except ServiceError Nat :=
  match findIndexL (fun p => p.id == id) people with
  | some i => .ok i
  | none => .error .notFound

/-- The collision predicate of the in-memory `update`
(src/src/people/people.service.ts lines 122-127), with JS evaluation
order and short-circuiting: the lastname comparison first (TypeError when
the payload omits lastname), then the firstname comparison (TypeError when
the payload omits firstname), then the id exclusion, all three
case-insensitive. -/
def updateCollisionPred (person : UpdatePersonDto) (id : String) (p : Person) :
    Except ServiceError Bool :=
  match person.lastname with
  | none => .error .typeError
  | some pl =>
    if jsToLower p.lastname == jsToLower pl then
      match person.firstname with
      | none => .error .typeError
      | some pf =>
        if jsToLower p.firstname == jsToLower pf then
          .ok (jsToLower p.id != jsToLower id)
        else
          .ok false
    else
      .ok false

/-- `Object.assign(record, person)`: overwrite exactly the fields present
in the payload. -/
def mergePerson (p : Person) (u : UpdatePersonDto) : Person :=
  { p with
    firstname := u.firstname.getD p.firstname
    lastname := u.lastname.getD p.lastname
    birthDate := u.birthDate.getD p.birthDate
    photo := u.photo.getD p.photo }

/-- In-memory `update` (src/src/people/people.service.ts lines 120-140):
collision scan excluding records whose id matches the target
case-insensitively (Conflict when one is found), then locate the record by
strict id equality (NotFound when absent), merge the payload in place and
return the merged record. -/
def update (people : List Person) (id : String) (person : UpdatePersonDto) :
    Except ServiceError Person × List Person :=
  match findE (updateCollisionPred person id) people with
  | .error e => (.error e, people)
  | .ok (some _) => (.error .conflict, people)
  | .ok none =>
    match _findPeopleIndexOfList people id with
    | .error e => (.error e, people)
    | .ok i =>
      let merged := mergePerson (people.getD i default) person
      (.ok merged, people.set i merged)

/-- In-memory `delete` (src/src/people/people.service.ts lines 146-150):
locate by id, `splice` the record out, NotFound when absent. -/
def delete (people : List Person) (id : String) :
    Except ServiceError Unit × List Person :=
  match _findPeopleIndexOfList people id with
  | .error e => (.error e, people)
  | .ok i => (.ok (), people.eraseIdx i)

/-- The index drawn by `findRandom` (src/unnamed/part_004 line 43):
`Math.round(Math.random() * length)` for a draw `r` of `Math.random()`. -/
def randomIndex (r : ℚ) (len : Nat) : Int := round (r * len)

/-- `findRandom` (src/unnamed/part_004 lines 42-45): the element at the
drawn index, `undefined` (none) when the access falls outside the list. -/
def findRandom (people : List Person) (r : ℚ) : Option Person :=
  people[(randomIndex r people.length).toNat]?

end InMemory

/-- An error raised by the external document store: mongoose errors carry
an optional numeric `code` (11000 for a duplicate-key violation); the JS
comparison `e.code === 11000` is false when `code` is absent. -/
structure DaoErr where
  code : Option Int
deriving Repr, DecidableEq

namespace DocStore

/-- `_addPerson` (src/unnamed/part_003 lines 213-218): spread the payload
and overwrite birthDate and photo with the fixed placeholders; this is the
object handed to `dao.save`. -/
def _addPerson (jsDate : String → Int) (person : CreatePersonDto) : CreatePersonDto :=
  { person with
    birthDate := _parseDate jsDate "06/05/1985"
    photo := placeholderPhoto }

/-- Modelled from the spec: the DAO `save` (a thin pass-through to the
external document store, src/unnamed/part_003 lines 56-59 wrapping
mongoose `save`) stores the payload under a store-assigned id and returns
the stored record. -/
def daoSave (store : List Person) (newId : String) (dto : CreatePersonDto) :
    Person × List Person :=
  let p : Person :=
    { id := newId
      firstname := dto.firstname
      lastname := dto.lastname
      birthDate := dto.birthDate
      photo := dto.photo }
  (p, store ++ [p])

/-- `create` (src/unnamed/part_003 lines 138-152): `_addPerson`, then the
DAO save (outcome a parameter), `catchError` translating a code-11000
error to Conflict and any other error to Unprocessable. -/
def create (jsDate : String → Int) (person : CreatePersonDto)
    (save : CreatePersonDto → Except DaoErr Person) : Except ServiceError Person :=
  match save (_addPerson jsDate person) with
  | .ok p => .ok p
  | .error e =>
    if e.code == some 11000 then .error .conflict else .error .unprocessable

/-- `update` (src/unnamed/part_003 lines 162-181) as a function of the DAO
`findByIdAndUpdate` outcome: a code-11000 error becomes Conflict, any
other error Unprocessable, an empty result NotFound. -/
def update (daoResult : Except DaoErr (Option Person)) : Except ServiceError Person :=
  match daoResult with
  | .error e =>
    if e.code == some 11000 then .error .conflict else .error .unprocessable
  | .ok (some p) => .ok p
  | .ok none => .error .notFound

/-- `delete` (src/unnamed/part_003 lines 190-202) as a function of the DAO
`findByIdAndRemove` outcome: `catchError` turns every error into
Unprocessable (no duplicate-key branch here), an empty result NotFound. -/
def delete (daoResult : Except DaoErr (Option Person)) : Except ServiceError Unit :=
  match daoResult with
  | .error _ => .error .unprocessable
  | .ok (some _) => .ok ()
  | .ok none => .error .notFound

/-- `findOne` (src/unnamed/part_003 lines 117-129) as a function of the DAO
`findById` outcome: every error becomes Unprocessable, an empty result
NotFound. -/
def findOne (daoResult : Except DaoErr (Option Person)) : Except ServiceError Person :=
  match daoResult with
  | .error _ => .error .unprocessable
  | .ok (some p) => .ok p
  | .ok none => .error .notFound

end DocStore

/-- Two records carry the same name, case-insensitively (the collision
criterion used throughout). -/
def nameEqB (a b : Person) : Bool :=
  jsToLower a.lastname == jsToLower b.lastname &&
  jsToLower a.firstname == jsToLower b.firstname

/-- The uniqueness invariant of the spec data model: all records carry
pairwise distinct (firstname, lastname) pairs, case-insensitively. -/
def UniqueNames (l : List Person) : Prop :=
  l.Pairwise fun a b => nameEqB a b = false

/-- All records carry pairwise distinct ids, case-insensitively. -/
def UniqueIds (l : List Person) : Prop :=
  l.Pairwise fun a b => jsToLower a.id ≠ jsToLower b.id

instance : DecidablePred UniqueNames := fun l =>
  inferInstanceAs (Decidable (l.Pairwise fun a b => nameEqB a b = false))

instance : DecidablePred UniqueIds := fun l =>
  inferInstanceAs (Decidable (l.Pairwise fun a b : Person => jsToLower a.id ≠ jsToLower b.id))

/-! ## Helper lemmas about the scanning combinators -/

/-- The two-name collision criterion, as a proposition. -/
def NameEq (a b : Person) : Prop :=
  jsToLower a.lastname = jsToLower b.lastname ∧ jsToLower a.firstname = jsToLower b.firstname

theorem nameEqB_eq_false_iff {a b : Person} : nameEqB a b = false ↔ ¬ NameEq a b := by
  simp [nameEqB, NameEq, Bool.and_eq_true, beq_iff_eq, -not_and,
    Decidable.not_and_iff_or_not]
  tauto

theorem nameEq_symm {a b : Person} : NameEq a b ↔ NameEq b a := by
  unfold NameEq
  constructor <;> exact fun h => ⟨h.1.symm, h.2.symm⟩

theorem findE_eq_ok_none_iff {α : Type} (pred : α → Except ServiceError Bool)
    (l : List α) : findE pred l = .ok none ↔ ∀ x ∈ l, pred x = .ok false := by
  induction l with
  | nil => simp [findE]
  | cons x xs ih =>
    unfold findE
    cases hx : pred x with
    | error e => simp [hx]
    | ok b =>
      cases b with
      | true => simp [hx]
      | false => simp [hx, ih]

theorem findE_total {α : Type} (pred : α → Except ServiceError Bool)
    (predB : α → Bool) (h : ∀ x, pred x = .ok (predB x)) (l : List α) :
    findE pred l = .ok (l.find? predB) := by
  induction l with
  | nil => simp [findE]
  | cons x xs ih =>
    unfold findE
    rw [h x]
    cases hx : predB x with
    | true => simp [List.find?, hx]
    | false => simp [List.find?, hx, ih]

theorem findIndexL_eq_none_iff {α : Type} (p : α → Bool) (l : List α) :
    findIndexL p l = none ↔ ∀ x ∈ l, p x = false := by
  induction l with
  | nil => simp [findIndexL]
  | cons x xs ih =>
    unfold findIndexL
    cases hx : p x with
    | true => simp [hx]
    | false => simp [hx, ih]

theorem findIndexL_some_spec {α : Type} (p : α → Bool) (l : List α) (i : Nat)
    (h : findIndexL p l = some i) :
    ∃ hl : i < l.length, p (l.get ⟨i, hl⟩) = true := by
  induction l generalizing i with
  | nil => simp [findIndexL] at h
  | cons x xs ih =>
    unfold findIndexL at h
    cases hx : p x with
    | true =>
      rw [hx] at h
      simp at h
      cases h
      exact ⟨by simp, by simpa using hx⟩
    | false =>
      rw [hx] at h
      simp [Option.map_eq_some'] at h
      obtain ⟨j, hj, rfl⟩ := h
      obtain ⟨hjl, hjp⟩ := ih j hj
      exact ⟨by simpa using Nat.succ_lt_succ hjl, by simpa using hjp⟩

theorem findIndexL_some_pred_at {α : Type} (p : α → Bool) (l : List α) (i : Nat)
    (d : α) (h : findIndexL p l = some i) : p (l.getD i d) = true := by
  obtain ⟨hl, hp⟩ := findIndexL_some_spec p l i h
  rw [List.getD_eq_getElem l d hl]
  simpa using hp

theorem createCollision_eq_none_iff (people : List Person) (dto : CreatePersonDto) :
    InMemory.createCollision people dto = none ↔
    ∀ p ∈ people, ¬(jsToLower p.lastname = jsToLower dto.lastname ∧
      jsToLower p.firstname = jsToLower dto.firstname) := by
  unfold InMemory.createCollision
  rw [List.find?_eq_none]
  simp [Bool.and_eq_true, beq_iff_eq, -not_and, Decidable.not_and_iff_or_not]

theorem createCollision_some_spec {people : List Person} {dto : CreatePersonDto}
    {q : Person} (h : InMemory.createCollision people dto = some q) :
    q ∈ people ∧ jsToLower q.lastname = jsToLower dto.lastname ∧
      jsToLower q.firstname = jsToLower dto.firstname := by
  unfold InMemory.createCollision at h
  refine ⟨List.mem_of_find?_eq_some h, ?_⟩
  have hq := List.find?_some h
  simpa [Bool.and_eq_true, beq_iff_eq] using hq

/-- Claim C2: the in-memory `create` fails with Conflict exactly when some
record already in the list carries the same firstname and lastname as the
payload under case-insensitive comparison; every failure is a Conflict and
leaves the people list unchanged (nothing appended); on success no
previously stored record carried that (firstname, lastname) pair. -/
theorem claim_C2_create_conflict_iff_atomic (people : List Person)
    (dto : CreatePersonDto) (now : Int) (jsDate : String → Int) :
    ((InMemory.create people dto now jsDate).1 = .error .conflict ↔
      ∃ p ∈ people, jsToLower p.lastname = jsToLower dto.lastname ∧
        jsToLower p.firstname = jsToLower dto.firstname) ∧
    (∀ e, (InMemory.create people dto now jsDate).1 = .error e →
      e = .conflict ∧ (InMemory.create people dto now jsDate).2 = people) ∧
    (∀ newP, (InMemory.create people dto now jsDate).1 = .ok newP →
      ∀ p ∈ people, ¬(jsToLower p.lastname = jsToLower dto.lastname ∧
        jsToLower p.firstname = jsToLower dto.firstname)) := by
  cases hc : InMemory.createCollision people dto with
  | some q =>
    obtain ⟨hmem, hl, hf⟩ := createCollision_some_spec hc
    have h1 : (InMemory.create people dto now jsDate).1 = .error .conflict := by
      simp [InMemory.create, hc]
    have h2 : (InMemory.create people dto now jsDate).2 = people := by
      simp [InMemory.create, hc]
    refine ⟨⟨fun _ => ⟨q, hmem, hl, hf⟩, fun _ => h1⟩, ?_, ?_⟩
    · intro e he
      rw [h1] at he
      injection he with h3
      exact ⟨h3.symm, h2⟩
    · intro newP hnew
      rw [h1] at hnew
      exact Except.noConfusion hnew
  | none =>
    have hnone := (createCollision_eq_none_iff people dto).mp hc
    have h1 : (InMemory.create people dto now jsDate).1 =
        .ok (InMemory._addPerson people dto now jsDate).1 := by
      simp [InMemory.create, hc]
    refine ⟨?_, ?_, ?_⟩
    · rw [h1]
      constructor
      · intro habs
        exact Except.noConfusion habs
      · rintro ⟨p, hp, hl2, hf2⟩
        exact absurd ⟨hl2, hf2⟩ (hnone p hp)
    · intro e he
      rw [h1] at he
      exact Except.noConfusion he
    · intro newP _ p hp
      exact hnone p hp

/-- Witness for C2: creating a case-insensitive duplicate of the only
stored record is a Conflict and leaves the list unchanged. -/
theorem claim_C2_witness :
    (InMemory.create [⟨"1", "Jane", "Doe", 0, ""⟩] ⟨"jAne", "dOe", 5, "x"⟩ 7
      (fun _ => 0)).1 = .error .conflict ∧
    (InMemory.create [⟨"1", "Jane", "Doe", 0, ""⟩] ⟨"jAne", "dOe", 5, "x"⟩ 7
      (fun _ => 0)).2 = [⟨"1", "Jane", "Doe", 0, ""⟩] := by
  have h := claim_C2_create_conflict_iff_atomic [⟨"1", "Jane", "Doe", 0, ""⟩]
    ⟨"jAne", "dOe", 5, "x"⟩ 7 (fun _ => 0)
  have hc := h.1.mpr ⟨⟨"1", "Jane", "Doe", 0, ""⟩, List.mem_singleton.mpr rfl,
    by decide, by decide⟩
  exact ⟨hc, (h.2.1 _ hc).2⟩

/-- Claim C3: when the payload collides with no stored record
case-insensitively, the in-memory `create` returns a record carrying the
payload's firstname and lastname, the timestamp-derived id, the fixed
placeholder birthDate parsed from 06/05/1985 and the fixed placeholder
photo URL, and appends exactly that record at the end of the list. -/
theorem claim_C3_create_success (people : List Person) (dto : CreatePersonDto)
    (now : Int) (jsDate : String → Int)
    (h : ∀ p ∈ people, ¬(jsToLower p.lastname = jsToLower dto.lastname ∧
      jsToLower p.firstname = jsToLower dto.firstname)) :
    ∃ newP : Person,
      (InMemory.create people dto now jsDate).1 = .ok newP ∧
      newP.firstname = dto.firstname ∧ newP.lastname = dto.lastname ∧
      newP.id = InMemory._createId now ∧
      newP.birthDate = _parseDate jsDate "06/05/1985" ∧
      newP.photo = placeholderPhoto ∧
      (InMemory.create people dto now jsDate).2 = people ++ [newP] := by
  have hc : InMemory.createCollision people dto = none :=
    (createCollision_eq_none_iff people dto).mpr h
  refine ⟨⟨InMemory._createId now, dto.firstname, dto.lastname,
    _parseDate jsDate "06/05/1985", placeholderPhoto⟩, ?_⟩
  simp [InMemory.create, hc, InMemory._addPerson]

/-- Witness for C3: creating John Smith next to Jane Doe succeeds and
yields the placeholder-filled record. -/
theorem claim_C3_witness :
    ∃ newP : Person,
      (InMemory.create [⟨"1", "Jane", "Doe", 0, ""⟩] ⟨"John", "Smith", 42, "pic"⟩
        99 (fun _ => 0)).1 = .ok newP ∧
      newP.firstname = "John" ∧ newP.lastname = "Smith" ∧
      newP.id = InMemory._createId 99 ∧
      newP.birthDate = _parseDate (fun _ => 0) "06/05/1985" ∧
      newP.photo = placeholderPhoto ∧
      (InMemory.create [⟨"1", "Jane", "Doe", 0, ""⟩] ⟨"John", "Smith", 42, "pic"⟩
        99 (fun _ => 0)).2 = [⟨"1", "Jane", "Doe", 0, ""⟩] ++ [newP] :=
  claim_C3_create_success [⟨"1", "Jane", "Doe", 0, ""⟩]
    ⟨"John", "Smith", 42, "pic"⟩ 99 (fun _ => 0) (by decide)

/-- Claim C9: the document-store `create` always hands `dao.save` the
payload with birthDate overwritten by the placeholder parsed from
06/05/1985 and photo overwritten by the placeholder URL, passing the
caller's other fields through unchanged; under the modelled pass-through
save, the stored and returned record carries the same values, and with
such a save `create` returns exactly the saved record. -/
theorem claim_C9_docstore_create_placeholders (jsDate : String → Int)
    (dto : CreatePersonDto) (store : List Person) (newId : String) :
    (DocStore._addPerson jsDate dto).firstname = dto.firstname ∧
    (DocStore._addPerson jsDate dto).lastname = dto.lastname ∧
    (DocStore._addPerson jsDate dto).birthDate = _parseDate jsDate "06/05/1985" ∧
    (DocStore._addPerson jsDate dto).photo = placeholderPhoto ∧
    ((DocStore.daoSave store newId (DocStore._addPerson jsDate dto)).1.firstname
        = dto.firstname ∧
      (DocStore.daoSave store newId (DocStore._addPerson jsDate dto)).1.lastname
        = dto.lastname ∧
      (DocStore.daoSave store newId (DocStore._addPerson jsDate dto)).1.birthDate
        = _parseDate jsDate "06/05/1985" ∧
      (DocStore.daoSave store newId (DocStore._addPerson jsDate dto)).1.photo
        = placeholderPhoto) ∧
    (DocStore.daoSave store newId (DocStore._addPerson jsDate dto)).2
      = store ++ [(DocStore.daoSave store newId (DocStore._addPerson jsDate dto)).1] ∧
    DocStore.create jsDate dto (fun d => .ok (DocStore.daoSave store newId d).1)
      = .ok (DocStore.daoSave store newId (DocStore._addPerson jsDate dto)).1 := by
  simp [DocStore._addPerson, DocStore.daoSave, DocStore.create]

/-- Counterexample to C6 as stated: a duplicate-key (code 11000) failure
of the storage call wrapped by the document-store `delete` is translated
to Unprocessable, not to Conflict. -/
theorem claim_C6_counterexample :
    DocStore.delete (.error ⟨some 11000⟩) = .error .unprocessable ∧
    DocStore.delete (.error ⟨some 11000⟩) ≠ .error .conflict := by
  constructor
  · rfl
  · intro h
    simp [DocStore.delete] at h

/-- Claim C6 (amended): `create` and `update` translate a code-11000
storage error to Conflict and any other storage error to Unprocessable;
`delete` translates every storage error, code 11000 included, to
Unprocessable; an empty result of `update` or `delete` becomes NotFound
(the save wrapped by `create` never completes empty). -/
theorem claim_C6_amended_error_translation :
    (∀ e : DaoErr, e.code = some 11000 →
      (∀ (dto : CreatePersonDto) (jsDate : String → Int),
        DocStore.create jsDate dto (fun _ => .error e) = .error .conflict) ∧
      DocStore.update (.error e) = .error .conflict ∧
      DocStore.delete (.error e) = .error .unprocessable) ∧
    (∀ e : DaoErr, e.code ≠ some 11000 →
      (∀ (dto : CreatePersonDto) (jsDate : String → Int),
        DocStore.create jsDate dto (fun _ => .error e) = .error .unprocessable) ∧
      DocStore.update (.error e) = .error .unprocessable ∧
      DocStore.delete (.error e) = .error .unprocessable) ∧
    DocStore.update (.ok none) = .error .notFound ∧
    DocStore.delete (.ok none) = .error .notFound := by
  refine ⟨?_, ?_, rfl, rfl⟩
  · intro e he
    refine ⟨fun dto jsDate => ?_, ?_, rfl⟩
    · simp [DocStore.create, he]
    · simp [DocStore.update, he]
  · intro e he
    have hb : (e.code == some 11000) = false := by
      simpa [beq_iff_eq] using he
    refine ⟨fun dto jsDate => ?_, ?_, rfl⟩
    · simp [DocStore.create, hb]
    · simp [DocStore.update, hb]

/-- Witness for the amended C6: a code-11000 error on `update` is a
Conflict, a code-121 error is Unprocessable. -/
theorem claim_C6_witness :
    DocStore.update (.error ⟨some 11000⟩) = .error .conflict ∧
    DocStore.update (.error ⟨some 121⟩) = .error .unprocessable :=
  ⟨(claim_C6_amended_error_translation.1 ⟨some 11000⟩ rfl).2.1,
   (claim_C6_amended_error_translation.2.1 ⟨some 121⟩ (by decide)).2.1⟩

/-- Claim C5: for every non-empty people list some admissible draw of
`Math.random()` makes the selection index `round(random * length)` equal
to the length, so the access falls outside the list; conversely any
admissible draw whose index is below the length selects an element of the
list. -/
theorem claim_C5_findRandom_bounds (people : List Person) (h : people ≠ []) :
    (∃ r : ℚ, 0 ≤ r ∧ r < 1 ∧
      InMemory.randomIndex r people.length = people.length ∧
      InMemory.findRandom people r = none) ∧
    (∀ r : ℚ, 0 ≤ r → r < 1 →
      InMemory.randomIndex r people.length < people.length →
      (InMemory.findRandom people r).isSome = true) := by
  have hn : 0 < people.length := List.length_pos.mpr h
  have hn0 : (0 : ℚ) < (people.length : ℚ) := by exact_mod_cast hn
  constructor
  · refine ⟨1 - 1 / (2 * (people.length : ℚ)), ?_, ?_, ?_, ?_⟩
    · have hle : 1 / (2 * (people.length : ℚ)) ≤ 1 := by
        rw [div_le_one (by positivity)]
        have : (1 : ℚ) ≤ (people.length : ℚ) := by exact_mod_cast hn
        linarith
      linarith
    · have hpos : 0 < 1 / (2 * (people.length : ℚ)) := by positivity
      linarith
    · have hrn : (1 - 1 / (2 * (people.length : ℚ))) * (people.length : ℚ)
          = (people.length : ℚ) - 1 / 2 := by
        field_simp
        ring
      rw [InMemory.randomIndex, hrn, round_eq]
      have : (people.length : ℚ) - 1 / 2 + 1 / 2 = (people.length : ℚ) := by ring
      rw [this, Int.floor_natCast]
    · have hrn : (1 - 1 / (2 * (people.length : ℚ))) * (people.length : ℚ)
          = (people.length : ℚ) - 1 / 2 := by
        field_simp
        ring
      have hidx : InMemory.randomIndex (1 - 1 / (2 * (people.length : ℚ)))
          people.length = people.length := by
        rw [InMemory.randomIndex, hrn, round_eq]
        have : (people.length : ℚ) - 1 / 2 + 1 / 2 = (people.length : ℚ) := by ring
        rw [this, Int.floor_natCast]
      rw [InMemory.findRandom, hidx]
      exact List.getElem?_eq_none (by simp)
  · intro r hr0 _ hlt
    have h0 : 0 ≤ InMemory.randomIndex r people.length := by
      rw [InMemory.randomIndex, round_eq]
      refine Int.floor_nonneg.mpr ?_
      have : 0 ≤ r * (people.length : ℚ) := mul_nonneg hr0 (by positivity)
      linarith
    have hlt' : (InMemory.randomIndex r people.length).toNat < people.length := by
      omega
    rw [InMemory.findRandom, List.getElem?_eq_getElem hlt']
    rfl

/-- Witness for C5 at a concrete one-element list. -/
theorem claim_C5_witness :
    (∃ r : ℚ, 0 ≤ r ∧ r < 1 ∧
      InMemory.randomIndex r [(⟨"1", "a", "b", 0, ""⟩ : Person)].length
        = [(⟨"1", "a", "b", 0, ""⟩ : Person)].length ∧
      InMemory.findRandom [⟨"1", "a", "b", 0, ""⟩] r = none) ∧
    (∀ r : ℚ, 0 ≤ r → r < 1 →
      InMemory.randomIndex r [(⟨"1", "a", "b", 0, ""⟩ : Person)].length
        < [(⟨"1", "a", "b", 0, ""⟩ : Person)].length →
      (InMemory.findRandom [⟨"1", "a", "b", 0, ""⟩] r).isSome = true) :=
  claim_C5_findRandom_bounds [⟨"1", "a", "b", 0, ""⟩] (by simp)

/-! ## Helper lemmas about the in-memory update -/

theorem updateCollisionPred_total (u : UpdatePersonDto) (id : String)
    (f l : String) (hf : u.firstname = some f) (hl : u.lastname = some l)
    (p : Person) :
    InMemory.updateCollisionPred u id p =
      .ok (jsToLower p.lastname == jsToLower l &&
        (jsToLower p.firstname == jsToLower f &&
          (jsToLower p.id != jsToLower id))) := by
  cases hpl : (jsToLower p.lastname == jsToLower l) with
  | true =>
    cases hpf : (jsToLower p.firstname == jsToLower f) with
    | true => simp [InMemory.updateCollisionPred, hl, hf, hpl, hpf]
    | false => simp [InMemory.updateCollisionPred, hl, hf, hpl, hpf]
  | false => simp [InMemory.updateCollisionPred, hl, hf, hpl]

theorem updateCollisionPred_none_last (u : UpdatePersonDto) (id : String)
    (hl : u.lastname = none) (p : Person) :
    InMemory.updateCollisionPred u id p = .error .typeError := by
  simp [InMemory.updateCollisionPred, hl]

theorem updateCollisionPred_none_first (u : UpdatePersonDto) (id : String)
    (l : String) (hl : u.lastname = some l) (hf : u.firstname = none)
    (p : Person) :
    InMemory.updateCollisionPred u id p =
      if jsToLower p.lastname == jsToLower l then .error .typeError
      else .ok false := by
  cases hpl : (jsToLower p.lastname == jsToLower l) with
  | true => simp [InMemory.updateCollisionPred, hl, hf, hpl]
  | false => simp [InMemory.updateCollisionPred, hl, hpl]

theorem findE_if_error {α : Type} (q : α → Bool) (err : ServiceError)
    (l : List α) :
    findE (fun x => if q x then .error err else .ok false) l
      = if l.any q then .error err else .ok none := by
  induction l with
  | nil => simp [findE]
  | cons x xs ih =>
    cases hx : q x with
    | true => simp [findE, hx]
    | false => simp [findE, hx, ih]

theorem update_eq_of_scan_error {people : List Person} {id : String}
    {u : UpdatePersonDto} {e : ServiceError}
    (h : findE (InMemory.updateCollisionPred u id) people = .error e) :
    InMemory.update people id u = (.error e, people) := by
  unfold InMemory.update
  rw [h]

theorem update_eq_of_scan_some {people : List Person} {id : String}
    {u : UpdatePersonDto} {q : Person}
    (h : findE (InMemory.updateCollisionPred u id) people = .ok (some q)) :
    InMemory.update people id u = (.error .conflict, people) := by
  unfold InMemory.update
  rw [h]

theorem update_eq_of_idx_error {people : List Person} {id : String}
    {u : UpdatePersonDto} {e : ServiceError}
    (hscan : findE (InMemory.updateCollisionPred u id) people = .ok none)
    (hidx : InMemory._findPeopleIndexOfList people id = .error e) :
    InMemory.update people id u = (.error e, people) := by
  unfold InMemory.update
  rw [hscan, hidx]

theorem update_eq_merge {people : List Person} {id : String}
    {u : UpdatePersonDto} {i : Nat}
    (hscan : findE (InMemory.updateCollisionPred u id) people = .ok none)
    (hidx : InMemory._findPeopleIndexOfList people id = .ok i) :
    InMemory.update people id u =
      (.ok (InMemory.mergePerson (people.getD i default) u),
        people.set i (InMemory.mergePerson (people.getD i default) u)) := by
  unfold InMemory.update
  rw [hscan, hidx]

theorem findPeopleIndex_error {people : List Person} {id : String}
    {e : ServiceError}
    (h : InMemory._findPeopleIndexOfList people id = .error e) :
    e = .notFound := by
  unfold InMemory._findPeopleIndexOfList at h
  cases hidx : findIndexL (fun p => p.id == id) people <;> rw [hidx] at h
  · injection h with h3
    exact h3.symm
  · exact Except.noConfusion h

theorem findPeopleIndex_error_iff (people : List Person) (id : String) :
    InMemory._findPeopleIndexOfList people id = .error .notFound ↔
    ∀ p ∈ people, p.id ≠ id := by
  unfold InMemory._findPeopleIndexOfList
  cases hidx : findIndexL (fun p => p.id == id) people with
  | none =>
    have hall := (findIndexL_eq_none_iff (fun p => p.id == id) people).mp hidx
    simp only [true_iff]
    intro p hp
    have := hall p hp
    simpa [beq_iff_eq] using this
  | some i =>
    obtain ⟨hil, hpi⟩ := findIndexL_some_spec _ _ _ hidx
    constructor
    · intro habs
      exact Except.noConfusion habs
    · intro hall
      have hmem : people.get ⟨i, hil⟩ ∈ people := List.get_mem people i hil
      have := hall _ hmem
      rw [beq_iff_eq] at hpi
      exact absurd hpi this

theorem findPeopleIndex_ok_spec {people : List Person} {id : String} {i : Nat}
    (h : InMemory._findPeopleIndexOfList people id = .ok i) :
    ∃ hil : i < people.length, (people.get ⟨i, hil⟩).id = id := by
  unfold InMemory._findPeopleIndexOfList at h
  cases hidx : findIndexL (fun p => p.id == id) people <;> rw [hidx] at h
  · exact Except.noConfusion h
  · injection h with h3
    subst h3
    obtain ⟨hil, hpi⟩ := findIndexL_some_spec _ _ _ hidx
    exact ⟨hil, by rwa [beq_iff_eq] at hpi⟩

theorem scan_none_iff (people : List Person) (id : String)
    (u : UpdatePersonDto) (f l : String) (hf : u.firstname = some f)
    (hl : u.lastname = some l) :
    findE (InMemory.updateCollisionPred u id) people = .ok none ↔
    ∀ p ∈ people, ¬(jsToLower p.id ≠ jsToLower id ∧
      jsToLower p.lastname = jsToLower l ∧
      jsToLower p.firstname = jsToLower f) := by
  rw [findE_eq_ok_none_iff]
  constructor
  · intro hall p hp
    have := hall p hp
    rw [updateCollisionPred_total u id f l hf hl p] at this
    injection this with hb
    simp only [Bool.and_eq_false_iff, beq_eq_false_iff_ne, ne_eq,
      bne_eq_false_iff_eq, beq_iff_eq, bne_iff_ne] at hb
    rintro ⟨hid, hlst, hfst⟩
    rcases hb with h | h
    · exact h hlst
    · rcases h with h | h
      · exact h hfst
      · exact hid h
  · intro hall p hp
    rw [updateCollisionPred_total u id f l hf hl p]
    have := hall p hp
    congr 1
    by_contra hb
    rw [Bool.not_eq_false, Bool.and_eq_true, Bool.and_eq_true,
      beq_iff_eq, beq_iff_eq, bne_iff_ne] at hb
    exact this ⟨hb.2.2, hb.1, hb.2.1⟩

theorem scan_some_exists {people : List Person} {id : String}
    {u : UpdatePersonDto} {f l : String} (hf : u.firstname = some f)
    (hl : u.lastname = some l) {q : Person}
    (h : findE (InMemory.updateCollisionPred u id) people = .ok (some q)) :
    q ∈ people ∧ jsToLower q.id ≠ jsToLower id ∧
      jsToLower q.lastname = jsToLower l ∧
      jsToLower q.firstname = jsToLower f := by
  rw [findE_total _ _ (updateCollisionPred_total u id f l hf hl)] at h
  injection h with h3
  have hmem := List.mem_of_find?_eq_some h3
  have hq := List.find?_some h3
  rw [Bool.and_eq_true, Bool.and_eq_true, beq_iff_eq, beq_iff_eq,
    bne_iff_ne] at hq
  exact ⟨hmem, hq.2.2, hq.1, hq.2.1⟩

/-- Counterexample to C4 as stated: the stored record's id "A" differs
from the target id "a" and its name matches the payload, yet the update
does not fail with Conflict (the code compares ids case-insensitively in
the exclusion, so the record is excluded and the call ends in NotFound). -/
theorem claim_C4_counterexample :
    ((⟨"A", "jane", "doe", 0, ""⟩ : Person).id ≠ "a" ∧
     jsToLower (⟨"A", "jane", "doe", 0, ""⟩ : Person).lastname = jsToLower "doe" ∧
     jsToLower (⟨"A", "jane", "doe", 0, ""⟩ : Person).firstname = jsToLower "jane") ∧
    (InMemory.update [(⟨"A", "jane", "doe", 0, ""⟩ : Person)] "a"
      ⟨some "jane", some "doe", none, none⟩).1 = .error .notFound ∧
    (InMemory.update [(⟨"A", "jane", "doe", 0, ""⟩ : Person)] "a"
      ⟨some "jane", some "doe", none, none⟩).1 ≠ .error .conflict := by decide

/-- Claim C4 (amended): for a payload carrying both name fields, the
in-memory `update` fails with Conflict exactly when some stored record
whose id differs from the target id case-insensitively matches the
payload's firstname and lastname case-insensitively (so updating a record
keeping its own name succeeds); with no such collision, when a record with
the given id exists the provided fields of that record are overwritten in
place, the untouched fields kept, and the merged record is returned, and
when none exists the call fails with NotFound leaving the list unchanged. -/
theorem claim_C4_update_semantics (people : List Person) (id : String)
    (u : UpdatePersonDto) (f l : String) (hf : u.firstname = some f)
    (hl : u.lastname = some l) :
    ((InMemory.update people id u).1 = .error .conflict ↔
      ∃ p ∈ people, jsToLower p.id ≠ jsToLower id ∧
        jsToLower p.lastname = jsToLower l ∧
        jsToLower p.firstname = jsToLower f) ∧
    ((∀ p ∈ people, ¬(jsToLower p.id ≠ jsToLower id ∧
        jsToLower p.lastname = jsToLower l ∧
        jsToLower p.firstname = jsToLower f)) →
      (∀ i, InMemory._findPeopleIndexOfList people id = .ok i →
        InMemory.update people id u =
          (.ok (InMemory.mergePerson (people.getD i default) u),
            people.set i (InMemory.mergePerson (people.getD i default) u)) ∧
        (InMemory.mergePerson (people.getD i default) u).firstname = f ∧
        (InMemory.mergePerson (people.getD i default) u).lastname = l ∧
        (InMemory.mergePerson (people.getD i default) u).id
          = (people.getD i default).id ∧
        (InMemory.mergePerson (people.getD i default) u).birthDate
          = u.birthDate.getD (people.getD i default).birthDate ∧
        (InMemory.mergePerson (people.getD i default) u).photo
          = u.photo.getD (people.getD i default).photo) ∧
      ((∀ p ∈ people, p.id ≠ id) →
        InMemory.update people id u = (.error .notFound, people))) := by
  constructor
  · constructor
    · intro hconf
      cases hscan : findE (InMemory.updateCollisionPred u id) people with
      | error e =>
        rw [update_eq_of_scan_error hscan] at hconf
        injection hconf with h3
        rw [findE_total _ _ (updateCollisionPred_total u id f l hf hl)] at hscan
        exact Except.noConfusion hscan
      | ok o =>
        cases o with
        | some q =>
          obtain ⟨hmem, hq⟩ := scan_some_exists hf hl hscan
          exact ⟨q, hmem, hq⟩
        | none =>
          cases hidx : InMemory._findPeopleIndexOfList people id with
          | error e =>
            rw [update_eq_of_idx_error hscan hidx] at hconf
            injection hconf with h3
            rw [findPeopleIndex_error hidx] at h3
            exact ServiceError.noConfusion h3
          | ok i =>
            rw [update_eq_merge hscan hidx] at hconf
            exact Except.noConfusion hconf
    · rintro ⟨p, hp, hpq⟩
      cases hscan : findE (InMemory.updateCollisionPred u id) people with
      | error e =>
        rw [findE_total _ _ (updateCollisionPred_total u id f l hf hl)] at hscan
        exact Except.noConfusion hscan
      | ok o =>
        cases o with
        | some q => rw [update_eq_of_scan_some hscan]
        | none =>
          have := (scan_none_iff people id u f l hf hl).mp hscan p hp
          exact absurd hpq this
  · intro hnc
    have hscan : findE (InMemory.updateCollisionPred u id) people = .ok none :=
      (scan_none_iff people id u f l hf hl).mpr hnc
    constructor
    · intro i hidx
      refine ⟨update_eq_merge hscan hidx, ?_, ?_, ?_, ?_, ?_⟩ <;>
        simp [InMemory.mergePerson, hf, hl]
    · intro habs
      have hidx : InMemory._findPeopleIndexOfList people id = .error .notFound :=
        (findPeopleIndex_error_iff people id).mpr habs
      exact update_eq_of_idx_error hscan hidx

/-- Witness for the amended C4: updating Jane Doe by her own id keeping
her name succeeds and merges in place. -/
theorem claim_C4_witness :
    (InMemory.update [(⟨"1", "Jane", "Doe", 7, "ph"⟩ : Person)] "1"
        ⟨some "Jane", some "Doe", some 9, none⟩).1 ≠ .error .conflict ∧
    InMemory.update [(⟨"1", "Jane", "Doe", 7, "ph"⟩ : Person)] "1"
        ⟨some "Jane", some "Doe", some 9, none⟩ =
      (.ok (InMemory.mergePerson
          ([(⟨"1", "Jane", "Doe", 7, "ph"⟩ : Person)].getD 0 default)
          ⟨some "Jane", some "Doe", some 9, none⟩),
        [(⟨"1", "Jane", "Doe", 7, "ph"⟩ : Person)].set 0
          (InMemory.mergePerson
            ([(⟨"1", "Jane", "Doe", 7, "ph"⟩ : Person)].getD 0 default)
            ⟨some "Jane", some "Doe", some 9, none⟩)) := by
  have h := claim_C4_update_semantics [(⟨"1", "Jane", "Doe", 7, "ph"⟩ : Person)]
    "1" ⟨some "Jane", some "Doe", some 9, none⟩ "Jane" "Doe" rfl rfl
  have hmrg := (h.2 (by decide)).1 0 (by decide)
  refine ⟨?_, hmrg.1⟩
  intro habs
  obtain ⟨p, hp, hpq⟩ := h.1.mp habs
  rw [List.mem_singleton] at hp
  subst hp
  exact hpq.1 (by decide)

/-- Claim C7: for an id carried by no record, the in-memory `findOne`,
`update` (with a payload carrying both names and colliding with nothing)
and `delete` all fail with NotFound and leave the list unchanged; the
document-store `delete` of an id the store resolves to an empty result
also fails with NotFound. -/
theorem claim_C7_notFound_on_absent_id (people : List Person) (id : String)
    (u : UpdatePersonDto) (f l : String)
    (habs : ∀ p ∈ people, p.id ≠ id)
    (hf : u.firstname = some f) (hl : u.lastname = some l)
    (hnc : ∀ p ∈ people, ¬(jsToLower p.id ≠ jsToLower id ∧
      jsToLower p.lastname = jsToLower l ∧
      jsToLower p.firstname = jsToLower f)) :
    InMemory.findOne people id = .error .notFound ∧
    InMemory.update people id u = (.error .notFound, people) ∧
    InMemory.delete people id = (.error .notFound, people) ∧
    DocStore.delete (.ok none) = .error .notFound := by
  have hidx : InMemory._findPeopleIndexOfList people id = .error .notFound :=
    (findPeopleIndex_error_iff people id).mpr habs
  refine ⟨?_, ?_, ?_, rfl⟩
  · have hfind : people.find? (fun p => p.id == id) = none :=
      List.find?_eq_none.mpr fun p hp => by
        simpa [beq_iff_eq] using habs p hp
    unfold InMemory.findOne
    rw [hfind]
  · exact update_eq_of_idx_error
      ((scan_none_iff people id u f l hf hl).mpr hnc) hidx
  · unfold InMemory.delete
    rw [hidx]

/-- Witness for C7 at a concrete list and an id absent from it. -/
theorem claim_C7_witness :
    InMemory.findOne [(⟨"1", "Jane", "Doe", 0, ""⟩ : Person)] "zzz"
      = .error .notFound ∧
    InMemory.update [(⟨"1", "Jane", "Doe", 0, ""⟩ : Person)] "zzz"
        ⟨some "John", some "Smith", none, none⟩
      = (.error .notFound, [(⟨"1", "Jane", "Doe", 0, ""⟩ : Person)]) ∧
    InMemory.delete [(⟨"1", "Jane", "Doe", 0, ""⟩ : Person)] "zzz"
      = (.error .notFound, [(⟨"1", "Jane", "Doe", 0, ""⟩ : Person)]) ∧
    DocStore.delete (.ok none) = .error .notFound :=
  claim_C7_notFound_on_absent_id [(⟨"1", "Jane", "Doe", 0, ""⟩ : Person)] "zzz"
    ⟨some "John", some "Smith", none, none⟩ "John" "Smith"
    (by decide) rfl rfl (by decide)

/-- Counterexample to C10 as stated: a payload that omits firstname but
carries a lastname matching no stored record's lastname does not raise a
type error — the scan short-circuits on the lastname mismatch, and the
partial update IS applied (John Doe becomes John Smith). -/
theorem claim_C10_counterexample :
    (⟨none, some "Smith", none, none⟩ : UpdatePersonDto).firstname = none ∧
    (InMemory.update [(⟨"1", "John", "Doe", 0, ""⟩ : Person)] "1"
        ⟨none, some "Smith", none, none⟩).1
      = .ok ⟨"1", "John", "Smith", 0, ""⟩ ∧
    (InMemory.update [(⟨"1", "John", "Doe", 0, ""⟩ : Person)] "1"
        ⟨none, some "Smith", none, none⟩).2
      = [(⟨"1", "John", "Smith", 0, ""⟩ : Person)] := by decide

/-- Claim C10 (amended): the in-memory `update` evaluates the payload's
lastname on every scanned record and its firstname only after a lastname
match, so: a payload omitting lastname raises a type error (and changes
nothing) whenever the list is non-empty; a payload with a lastname but no
firstname raises a type error (changing nothing) when some record's
lastname matches it case-insensitively; but when no record's lastname
matches, the scan passes and the merge is applied, keeping the record's
firstname. -/
theorem claim_C10_partial_payload (people : List Person) (id : String) :
    (∀ u : UpdatePersonDto, u.lastname = none → people ≠ [] →
      InMemory.update people id u = (.error .typeError, people)) ∧
    (∀ (u : UpdatePersonDto) (l : String), u.lastname = some l →
      u.firstname = none →
      (∃ p ∈ people, jsToLower p.lastname = jsToLower l) →
      InMemory.update people id u = (.error .typeError, people)) ∧
    (∀ (u : UpdatePersonDto) (l : String), u.lastname = some l →
      u.firstname = none →
      (∀ p ∈ people, jsToLower p.lastname ≠ jsToLower l) →
      ∀ i, InMemory._findPeopleIndexOfList people id = .ok i →
        InMemory.update people id u =
          (.ok (InMemory.mergePerson (people.getD i default) u),
            people.set i (InMemory.mergePerson (people.getD i default) u)) ∧
        (InMemory.mergePerson (people.getD i default) u).firstname
          = (people.getD i default).firstname) := by
  refine ⟨?_, ?_, ?_⟩
  · intro u hl hne
    obtain ⟨x, xs, rfl⟩ := List.exists_cons_of_ne_nil hne
    have hscan : findE (InMemory.updateCollisionPred u id) (x :: xs)
        = .error .typeError := by
      unfold findE
      rw [updateCollisionPred_none_last u id hl x]
    exact update_eq_of_scan_error hscan
  · intro u l hl hf hmatch
    have hpred : InMemory.updateCollisionPred u id = fun p =>
        if jsToLower p.lastname == jsToLower l then .error .typeError
        else .ok false :=
      funext (updateCollisionPred_none_first u id l hl hf)
    have hany : people.any (fun p => jsToLower p.lastname == jsToLower l)
        = true := by
      rw [List.any_eq_true]
      obtain ⟨p, hp, hpl⟩ := hmatch
      exact ⟨p, hp, beq_iff_eq.mpr hpl⟩
    have hscan : findE (InMemory.updateCollisionPred u id) people
        = .error .typeError := by
      rw [hpred, findE_if_error, hany]
      rfl
    exact update_eq_of_scan_error hscan
  · intro u l hl hf hnone i hidx
    have hpred : InMemory.updateCollisionPred u id = fun p =>
        if jsToLower p.lastname == jsToLower l then .error .typeError
        else .ok false :=
      funext (updateCollisionPred_none_first u id l hl hf)
    have hany : people.any (fun p => jsToLower p.lastname == jsToLower l)
        = false := by
      rw [Bool.eq_false_iff]
      intro habs
      rw [List.any_eq_true] at habs
      obtain ⟨p, hp, hpl⟩ := habs
      exact hnone p hp (beq_iff_eq.mp hpl)
    have hscan : findE (InMemory.updateCollisionPred u id) people
        = .ok none := by
      rw [hpred, findE_if_error, hany]
      rfl
    exact ⟨update_eq_merge hscan hidx, by simp [InMemory.mergePerson, hf]⟩

/-- Witness for the amended C10: an all-empty payload on a one-element
list raises the type error and leaves the list unchanged. -/
theorem claim_C10_witness :
    InMemory.update [(⟨"1", "John", "Doe", 0, ""⟩ : Person)] "1"
        ⟨none, none, none, none⟩
      = (.error .typeError, [(⟨"1", "John", "Doe", 0, ""⟩ : Person)]) :=
  (claim_C10_partial_payload [(⟨"1", "John", "Doe", 0, ""⟩ : Person)] "1").1
    ⟨none, none, none, none⟩ rfl (by decide)

/-- Counterexample to C8 as stated: when a stored record already carries
the id the timestamp produces ("123"), a successful create appends the
new record at the end, but `findOne` scans from the front and returns the
OLD record, not the one create returned. -/
theorem claim_C8_counterexample :
    (InMemory.create [(⟨"123", "a", "b", 0, ""⟩ : Person)] ⟨"c", "d", 7, "p"⟩
      123 (fun _ => 0)).1 = .ok ⟨"123", "c", "d", 0, placeholderPhoto⟩ ∧
    InMemory.findOne (InMemory.create [(⟨"123", "a", "b", 0, ""⟩ : Person)]
      ⟨"c", "d", 7, "p"⟩ 123 (fun _ => 0)).2 "123"
      = .ok ⟨"123", "a", "b", 0, ""⟩ ∧
    (⟨"123", "a", "b", 0, ""⟩ : Person)
      ≠ ⟨"123", "c", "d", 0, placeholderPhoto⟩ := by decide

/-- Claim C8 (amended): when the creation succeeds and no already-stored
record carries the timestamp-derived id, `findOne` at the returned
record's id returns exactly the record create returned — the supplied
names with the overwritten birthDate and photo placeholders. -/
theorem claim_C8_create_findOne_roundtrip (people : List Person)
    (dto : CreatePersonDto) (now : Int) (jsDate : String → Int)
    (hnc : ∀ p ∈ people, ¬(jsToLower p.lastname = jsToLower dto.lastname ∧
      jsToLower p.firstname = jsToLower dto.firstname))
    (hid : ∀ p ∈ people, p.id ≠ InMemory._createId now) :
    ∃ newP : Person, (InMemory.create people dto now jsDate).1 = .ok newP ∧
      InMemory.findOne (InMemory.create people dto now jsDate).2 newP.id
        = .ok newP ∧
      newP.id = InMemory._createId now ∧
      newP.firstname = dto.firstname ∧ newP.lastname = dto.lastname ∧
      newP.birthDate = _parseDate jsDate "06/05/1985" ∧
      newP.photo = placeholderPhoto := by
  have hc : InMemory.createCollision people dto = none :=
    (createCollision_eq_none_iff people dto).mpr hnc
  refine ⟨⟨InMemory._createId now, dto.firstname, dto.lastname,
    _parseDate jsDate "06/05/1985", placeholderPhoto⟩, ?_, ?_, rfl, rfl, rfl,
    rfl, rfl⟩
  · simp [InMemory.create, hc, InMemory._addPerson]
  · have hcreate : (InMemory.create people dto now jsDate).2 = people ++
        [⟨InMemory._createId now, dto.firstname, dto.lastname,
          _parseDate jsDate "06/05/1985", placeholderPhoto⟩] := by
      simp [InMemory.create, hc, InMemory._addPerson]
    rw [hcreate]
    have h1 : people.find?
        (fun p => p.id == InMemory._createId now) = none :=
      List.find?_eq_none.mpr fun p hp => by
        simpa [beq_iff_eq] using hid p hp
    unfold InMemory.findOne
    rw [List.find?_append, h1]
    simp [List.find?]

/-- Witness for the amended C8: creating John Smith next to Jane Doe and
reading the returned id back yields the created record. -/
theorem claim_C8_witness :
    ∃ newP : Person,
      (InMemory.create [(⟨"1", "Jane", "Doe", 0, ""⟩ : Person)]
        ⟨"John", "Smith", 42, "pic"⟩ 99 (fun _ => 0)).1 = .ok newP ∧
      InMemory.findOne (InMemory.create [(⟨"1", "Jane", "Doe", 0, ""⟩ : Person)]
        ⟨"John", "Smith", 42, "pic"⟩ 99 (fun _ => 0)).2 newP.id = .ok newP ∧
      newP.id = InMemory._createId 99 ∧
      newP.firstname = "John" ∧ newP.lastname = "Smith" ∧
      newP.birthDate = _parseDate (fun _ => 0) "06/05/1985" ∧
      newP.photo = placeholderPhoto :=
  claim_C8_create_findOne_roundtrip [(⟨"1", "Jane", "Doe", 0, ""⟩ : Person)]
    ⟨"John", "Smith", 42, "pic"⟩ 99 (fun _ => 0) (by decide) (by decide)

/-! ## Preservation of the name-uniqueness invariant -/

theorem uniqueNames_iff_prop (l : List Person) :
    UniqueNames l ↔ l.Pairwise fun a b => ¬ NameEq a b := by
  unfold UniqueNames
  constructor
  · exact fun h => h.imp fun hab => nameEqB_eq_false_iff.mp hab
  · exact fun h => h.imp fun hab => nameEqB_eq_false_iff.mpr hab

theorem uniqueNames_set (people : List Person) (i : Nat) (m : Person)
    (h1 : UniqueNames people)
    (hsafe : ∀ j (hj : j < people.length), j ≠ i →
      ¬ NameEq (people.get ⟨j, hj⟩) m) :
    UniqueNames (people.set i m) := by
  rw [uniqueNames_iff_prop] at h1 ⊢
  rw [List.pairwise_iff_getElem] at h1 ⊢
  intro a b ha hb hab
  have ha2 : a < people.length := by simpa using ha
  have hb2 : b < people.length := by simpa using hb
  by_cases hai : a = i
  · subst hai
    rw [List.getElem_set_self, List.getElem_set_ne (by omega)]
    intro hne
    refine hsafe b hb2 (by omega) ?_
    rw [List.get_eq_getElem]
    exact nameEq_symm.mp hne
  · by_cases hbi : b = i
    · subst hbi
      rw [List.getElem_set_self, List.getElem_set_ne (by omega)]
      have := hsafe a ha2 hai
      rw [List.get_eq_getElem] at this
      exact this
    · rw [List.getElem_set_ne (by omega), List.getElem_set_ne (by omega)]
      exact h1 a b ha2 hb2 hab

theorem no_nameEq_merge (u : UpdatePersonDto) (id : String) (tgt q : Person)
    (htgt : InMemory.updateCollisionPred u id tgt = .ok false)
    (hq : InMemory.updateCollisionPred u id q = .ok false)
    (hqid : jsToLower q.id ≠ jsToLower id) :
    ¬ NameEq q (InMemory.mergePerson tgt u) := by
  cases hl : u.lastname with
  | none =>
    rw [updateCollisionPred_none_last u id hl tgt] at htgt
    exact Except.noConfusion htgt
  | some l =>
    cases hf : u.firstname with
    | none =>
      rw [updateCollisionPred_none_first u id l hl hf q] at hq
      by_cases hm : (jsToLower q.lastname == jsToLower l) = true
      · rw [if_pos hm] at hq
        exact Except.noConfusion hq
      · intro hne
        have hml : (InMemory.mergePerson tgt u).lastname = l := by
          simp [InMemory.mergePerson, hl]
        have hq1 := hne.1
        rw [hml] at hq1
        exact hm (beq_iff_eq.mpr hq1)
    | some f =>
      rw [updateCollisionPred_total u id f l hf hl q] at hq
      injection hq with hqb
      intro hne
      have hml : (InMemory.mergePerson tgt u).lastname = l := by
        simp [InMemory.mergePerson, hl]
      have hmf : (InMemory.mergePerson tgt u).firstname = f := by
        simp [InMemory.mergePerson, hf]
      obtain ⟨hnl, hnf⟩ := hne
      rw [hml] at hnl
      rw [hmf] at hnf
      have hidne : (jsToLower q.id != jsToLower id) = true := bne_iff_ne.mpr hqid
      simp [hnl, hnf, hidne] at hqb

theorem update_preserves_uniqueNames (people : List Person) (id : String)
    (u : UpdatePersonDto) (h1 : UniqueNames people) (h2 : UniqueIds people) :
    UniqueNames (InMemory.update people id u).2 := by
  cases hscan : findE (InMemory.updateCollisionPred u id) people with
  | error e =>
    rw [update_eq_of_scan_error hscan]
    exact h1
  | ok o =>
    cases o with
    | some q =>
      rw [update_eq_of_scan_some hscan]
      exact h1
    | none =>
      cases hidx : InMemory._findPeopleIndexOfList people id with
      | error e =>
        rw [update_eq_of_idx_error hscan hidx]
        exact h1
      | ok i =>
        rw [update_eq_merge hscan hidx]
        obtain ⟨hil, htgtid⟩ := findPeopleIndex_ok_spec hidx
        have hall := (findE_eq_ok_none_iff (InMemory.updateCollisionPred u id)
          people).mp hscan
        have hgetD : people.getD i default = people.get ⟨i, hil⟩ := by
          rw [List.getD_eq_getElem people default hil, List.get_eq_getElem]
        rw [hgetD]
        apply uniqueNames_set people i _ h1
        intro j hj hji
        have hqmem : people.get ⟨j, hj⟩ ∈ people := List.get_mem people j hj
        have htgtmem : people.get ⟨i, hil⟩ ∈ people := List.get_mem people i hil
        have hqpred := hall _ hqmem
        have htgtpred := hall _ htgtmem
        have h2g := (List.pairwise_iff_getElem.mp h2)
        have hqid : jsToLower (people.get ⟨j, hj⟩).id ≠ jsToLower id := by
          have hij : jsToLower (people.get ⟨j, hj⟩).id
              ≠ jsToLower (people.get ⟨i, hil⟩).id := by
            rcases Nat.lt_or_ge j i with hlt | hge
            · have := h2g j i hj hil hlt
              simpa [List.get_eq_getElem] using this
            · have hlt : i < j := by omega
              have := h2g i j hil hj hlt
              simp only [List.get_eq_getElem]
              exact fun hh => this hh.symm
          rwa [htgtid] at hij
        exact no_nameEq_merge u id _ _ htgtpred hqpred hqid

theorem create_preserves_uniqueNames (people : List Person)
    (dto : CreatePersonDto) (now : Int) (jsDate : String → Int)
    (h1 : UniqueNames people) :
    UniqueNames (InMemory.create people dto now jsDate).2 := by
  cases hc : InMemory.createCollision people dto with
  | some q =>
    have h2 : (InMemory.create people dto now jsDate).2 = people := by
      simp [InMemory.create, hc]
    rw [h2]
    exact h1
  | none =>
    have h2 : (InMemory.create people dto now jsDate).2 = people ++
        [⟨InMemory._createId now, dto.firstname, dto.lastname,
          _parseDate jsDate "06/05/1985", placeholderPhoto⟩] := by
      simp [InMemory.create, hc, InMemory._addPerson]
    rw [h2, uniqueNames_iff_prop, List.pairwise_append]
    have hnone := (createCollision_eq_none_iff people dto).mp hc
    refine ⟨(uniqueNames_iff_prop people).mp h1,
      List.pairwise_singleton _ _, ?_⟩
    intro a ha b hb
    rw [List.mem_singleton] at hb
    subst hb
    intro hne
    exact hnone a ha ⟨hne.1, hne.2⟩

theorem delete_preserves_uniqueNames (people : List Person) (id : String)
    (h1 : UniqueNames people) :
    UniqueNames (InMemory.delete people id).2 := by
  cases hidx : InMemory._findPeopleIndexOfList people id with
  | error e =>
    simp only [InMemory.delete, hidx]
    exact h1
  | ok i =>
    simp only [InMemory.delete, hidx]
    exact List.Pairwise.sublist (List.eraseIdx_sublist people i) h1

/-- Counterexample to C1 as stated: a list whose records carry pairwise
distinct names but ids differing only in case ("A" and "a"); updating
record "A" to the name of record "a" is accepted — the collision scan
excludes "a" because ids are compared case-insensitively while the merge
targets "A" by strict equality — and the result holds two records named
f l. -/
theorem claim_C1_counterexample :
    UniqueNames [(⟨"A", "x", "y", 0, ""⟩ : Person), ⟨"a", "f", "l", 0, ""⟩] ∧
    (InMemory.update [(⟨"A", "x", "y", 0, ""⟩ : Person), ⟨"a", "f", "l", 0, ""⟩]
      "A" ⟨some "f", some "l", none, none⟩).1 = .ok ⟨"A", "f", "l", 0, ""⟩ ∧
    ¬ UniqueNames (InMemory.update
      [(⟨"A", "x", "y", 0, ""⟩ : Person), ⟨"a", "f", "l", 0, ""⟩]
      "A" ⟨some "f", some "l", none, none⟩).2 := by decide

/-- Claim C1 (amended): on every state whose records carry pairwise
distinct (firstname, lastname) pairs AND pairwise distinct ids, both
case-insensitively, each of the in-memory create, update and delete
operations yields a state whose records again carry pairwise distinct
(firstname, lastname) pairs case-insensitively. -/
theorem claim_C1_ops_preserve_uniqueness (people : List Person)
    (h1 : UniqueNames people) (h2 : UniqueIds people) :
    (∀ (dto : CreatePersonDto) (now : Int) (jsDate : String → Int),
      UniqueNames (InMemory.create people dto now jsDate).2) ∧
    (∀ (id : String) (u : UpdatePersonDto),
      UniqueNames (InMemory.update people id u).2) ∧
    (∀ id : String, UniqueNames (InMemory.delete people id).2) :=
  ⟨fun dto now jsDate => create_preserves_uniqueNames people dto now jsDate h1,
   fun id u => update_preserves_uniqueNames people id u h1 h2,
   fun id => delete_preserves_uniqueNames people id h1⟩

/-- Witness for the amended C1 on a concrete two-record state. -/
theorem claim_C1_witness :
    UniqueNames [(⟨"1", "Jane", "Doe", 0, ""⟩ : Person),
      ⟨"2", "John", "Smith", 0, ""⟩] ∧
    UniqueIds [(⟨"1", "Jane", "Doe", 0, ""⟩ : Person),
      ⟨"2", "John", "Smith", 0, ""⟩] ∧
    UniqueNames (InMemory.update
      [(⟨"1", "Jane", "Doe", 0, ""⟩ : Person), ⟨"2", "John", "Smith", 0, ""⟩]
      "1" ⟨some "Janet", some "Doe", none, none⟩).2 :=
  ⟨by decide, by decide,
    (claim_C1_ops_preserve_uniqueness
      [(⟨"1", "Jane", "Doe", 0, ""⟩ : Person), ⟨"2", "John", "Smith", 0, ""⟩]
      (by decide) (by decide)).2.1 "1" ⟨some "Janet", some "Doe", none, none⟩⟩
